import Mathlib

/-!
# SetMeUp — formal model of the configuration resolver and apply engine

Shallow embedding of the `setmeup` Python package (files `config.py`,
`plan.py`, `utils.py`, `cli.py`).  External effects (filesystem, YAML
parsing, subprocess execution, interactive input, the clock) are
represented by a `World` of oracles; every external interaction consumes
one tick of a global counter, so repeated invocations of the same command
may observe different results, exactly as real subprocess calls do.

Machine-level hashing (`hashlib.sha256`) is abstracted as the world's
digest oracle `H`; no claim depends on properties of the concrete hash.
-/

/-- `config.py` `EnvironmentVariable.__init__` fields.  The class defines
`__hash__` (by name) but not `__eq__`, so Python equality stays object
identity: a set of these objects never merges two declarations, whatever
their names.  We therefore model the "set" of declarations as a list of
all constructed objects (claims are stated order-independently, since
Python set iteration order is unspecified). -/
structure EnvironmentVariable where
  name : String
  value : Option String := none
  store_in : Option String := none
  description : String := ""
deriving DecidableEq

/-- A step declaration in a configuration document: exactly one of the
`brewfile` / `script` keys is present (spec section 6; `parse_steps`
dispatches on which key is set). -/
inductive StepDecl
  | brewfileDecl (brewfile : String) (description : Option String) (completion_check : Option String)
  | scriptDecl (script : String) (description : Option String) (completion_check : Option String)
deriving DecidableEq

/-- A parsed configuration document: the recognized top-level keys of a
SetMeUp YAML file (`inherits`, `env_vars`, `steps`), cf. `load_yaml`. -/
structure ConfigDoc where
  inherits : List String
  env_vars : List EnvironmentVariable
  steps : List StepDecl
deriving DecidableEq

/-- External world: all effectful collaborators of the core.
`docs` is the YAML parser composed with the filesystem (a path either
parses to a configuration document or is missing), `files` is raw file
content, `H` the content digest, `exit` the exit code of the tick-th
external command, `input` the interactive answer at a tick, `time` the
clock at a tick, `env0` the initial process environment, and `expand`
models `os.path.expanduser`. -/
structure World where
  docs : String → Option ConfigDoc
  files : String → Option String
  H : String → String
  exit : Nat → String → Int
  input : Nat → String
  time : Nat → Nat
  env0 : String → Option String
  expand : String → String

/-- Error outcomes of the embedded code.  `outOfFuel` is the modelling
artifact for non-termination of the recursive loader (Python recurses
until the interpreter's recursion limit); the remaining constructors are
the exceptions the source raises. -/
inductive SetmeupError
  | outOfFuel
  | configNotFound (path : String)
  | fileNotFound (path : String)
  | notImplementedChecksum (checksum_type : String)
  | noFilename
deriving DecidableEq

/-- String prefix test on the underlying character lists (the library's
`String.startsWith` does not reduce definitionally). -/
def strStartsWith (s p : String) : Bool := p.data.isPrefixOf s.data

/-- String suffix test on the underlying character lists. -/
def strEndsWith (s p : String) : Bool := p.data.reverse.isPrefixOf s.data.reverse

/-- Python `str.strip()`: drop leading and trailing whitespace. -/
def pyStrip (s : String) : String :=
  String.mk ((s.data.dropWhile Char.isWhitespace).reverse.dropWhile Char.isWhitespace).reverse

/-- `os.path.dirname` (posix): everything before the last slash; a head
of slashes only is kept, otherwise trailing slashes are stripped. -/
def dirname (p : String) : String :=
  let cs := p.data
  match cs.reverse.findIdx? (· = '/') with
  | none => ""
  | some k =>
    let head := cs.take (cs.length - k)
    if head.all (· = '/') then String.mk head
    else String.mk (head.reverse.dropWhile (· = '/')).reverse

/-- `os.path.join` (posix, two arguments): an absolute second component
replaces the first; otherwise join with a slash unless one is present. -/
def joinPath (a b : String) : String :=
  if strStartsWith b "/" then b
  else if a = "" ∨ strEndsWith a "/" then a ++ b
  else a ++ "/" ++ b

/-- `utils.checksum_from_string`: digest of a literal string. -/
def checksum_from_string (w : World) (s : String) : String := w.H s

/-- `utils.checksum_from_file`: digest of a file's content; raises if the
file is missing. -/
def checksum_from_file (w : World) (path : String) : Except SetmeupError String :=
  match w.files path with
  | none => .error (.fileNotFound path)
  | some content => .ok (w.H content)

/-- Modelled from the spec: `is_file` is imported by `config.py` from
`setmeup.utils` but absent from the sources; the spec disambiguates a
script source "by file existence at resolution time" (section 3), so a
present path is a file and an absent command is not. -/
def is_file (w : World) : Option String → Bool
  | none => false
  | some p => (w.files p).isSome

/-- Modelled from the spec: `get_file_content_or_command` is imported by
`config.py` from `setmeup.utils` but absent from the sources; the spec
says a script's checksum is the "digest of the resolved content (file
bytes if a path, literal string otherwise)" (section 3). -/
def get_file_content_or_command (w : World) (script : String) : String :=
  match w.files script with
  | some content => content
  | none => script

/-- A constructed `SetupStep` (`config.py`): either a `BrewfileSetupStep`
or a `ScriptSetupStep`, carrying the checksum snapshot `_checksum`
computed at construction time. -/
inductive SetupStep
  | brewfileStep (brewfile : String) (description : Option String)
      (completion_check : Option String) (checksum : String)
  | scriptStep (script : String) (description : Option String)
      (completion_check : Option String) (checksum : String)
deriving DecidableEq

/-- The `name` attribute of a setup step: the class constant for
brewfile steps, the formatted script name for script steps. -/
def SetupStep.stepName : SetupStep → String
  | .brewfileStep _ _ _ _ => "Install Brew Bundle"
  | .scriptStep script _ _ _ => "Execute Script " ++ script

/-- `YamlConfig.parse_steps`: dispatch each declaration; a script path is
resolved against the declaring document's directory when it names an
existing file; each constructor computes its checksum snapshot
(`checksum_from_file` for brewfiles — unresolved path, exactly as in the
source — and the digest of the resolved content for scripts). -/
def parseSteps (w : World) (filepath : String) : List StepDecl → Except SetmeupError (List SetupStep)
  | [] => .ok []
  | .brewfileDecl bf desc cc :: rest => do
    let cs ← checksum_from_file w bf
    let tail ← parseSteps w filepath rest
    .ok (.brewfileStep bf desc cc cs :: tail)
  | .scriptDecl sc desc cc :: rest => do
    let base := dirname filepath
    let resolved := if (w.files (joinPath base sc)).isSome then joinPath base sc else sc
    let cs := checksum_from_string w (get_file_content_or_command w resolved)
    let tail ← parseSteps w filepath rest
    .ok (.scriptStep resolved desc cc cs :: tail)

/-- The mutable state of a `YamlConfig` object: its path, raw `inherits`
list, and current env-var / step collections. -/
structure YC where
  filepath : String
  inherits : List String
  env_vars : List EnvironmentVariable
  steps : List SetupStep
deriving DecidableEq

/-- The body of `parse_inherited_configs`'s loop, parameterized by the
loader and re-parser available one recursion level down: for each
inherited relative path, construct `YamlConfig(absolute_path)` (which
already resolves transitively through `__init__`), then — exactly as the
source does — call `parse_inherited_configs()` on it a second time, and
accumulate its env vars and steps in order. -/
def goInherits (loadN : String → Except SetmeupError YC)
    (parseN : YC → Except SetmeupError YC) (filepath : String) :
    List String → Except SetmeupError (List EnvironmentVariable × List SetupStep)
  | [] => .ok ([], [])
  | rel :: rest => do
    let c ← loadN (joinPath (dirname filepath) rel)
    let c2 ← parseN c
    let (evs, sts) ← goInherits loadN parseN filepath rest
    .ok (c2.env_vars ++ evs, c2.steps ++ sts)

/-- `YamlConfig.parse_inherited_configs` (merge part): inherited env vars
first, then the local ones (the Python set union never deduplicates,
since `EnvironmentVariable.__eq__` is object identity); inherited steps
are prepended to the local steps. -/
def parseInheritedWith (loadN : String → Except SetmeupError YC)
    (parseN : YC → Except SetmeupError YC) (st : YC) : Except SetmeupError YC := do
  let (newEnv, newSteps) ← goInherits loadN parseN st.filepath st.inherits
  .ok { st with env_vars := newEnv ++ st.env_vars, steps := newSteps ++ st.steps }

/-- Fuel-indexed pair (loader, re-parser) for `YamlConfig`: level `n + 1`
builds `load_yaml` (read the document, parse steps, then run
`parse_inherited_configs`) on top of the level-`n` functions; level `0`
is exhausted fuel.  Any acyclic configuration resolves once the fuel
exceeds its inheritance depth; a cyclic one exhausts every fuel. -/
def resolverAux (w : World) : Nat → (String → Except SetmeupError YC) × (YC → Except SetmeupError YC)
  | 0 => (fun _ => .error .outOfFuel, fun _ => .error .outOfFuel)
  | n + 1 =>
    let prev := resolverAux w n
    let parseInh := parseInheritedWith prev.1 prev.2
    let load := fun path =>
      match w.docs path with
      | none => .error (.configNotFound path)
      | some doc => do
        let steps ← parseSteps w path doc.steps
        parseInh { filepath := path, inherits := doc.inherits, env_vars := doc.env_vars, steps := steps }
    (load, parseInh)

/-- `YamlConfig(filepath)` — `__init__` runs `load_yaml`, which resolves
the whole inheritance tree. -/
def load_yaml (w : World) (fuel : Nat) (path : String) : Except SetmeupError YC :=
  (resolverAux w fuel).1 path

/-- Decidable equality for `Except`, used to evaluate the model on
concrete inputs. -/
instance {e a : Type} [DecidableEq e] [DecidableEq a] : DecidableEq (Except e a) := fun x y =>
  match x, y with
  | .ok u, .ok v => if h : u = v then .isTrue (by rw [h]) else .isFalse (by simp [h])
  | .error u, .error v => if h : u = v then .isTrue (by rw [h]) else .isFalse (by simp [h])
  | .ok _, .error _ => .isFalse (by simp)
  | .error _, .ok _ => .isFalse (by simp)

/-- `plan.py` `PlanEnvironmentVariable`: the plan-level projection of an
environment variable. -/
structure PlanEnvironmentVariable where
  name : String
  store_in : Option String
  value : Option String
  description : String := ""
deriving DecidableEq

/-- `config.py` `EnvironmentVariable.to_plan_format_v1`. -/
def EnvironmentVariable.to_plan_format_v1 (v : EnvironmentVariable) : PlanEnvironmentVariable :=
  { description := v.description, name := v.name, store_in := v.store_in, value := v.value }

/-- `plan.py` `PlanStepChechsum` (name as spelled in the source): the
checksum snapshot carried by a plan step. -/
structure PlanStepChechsum where
  value : String
  origin : String
  checksum_type : String
deriving DecidableEq

/-- `PlanStepChechsum.TYPE_FILE`. -/
def PlanStepChechsum.TYPE_FILE : String := "file"

/-- `PlanStepChechsum.TYPE_STRING`. -/
def PlanStepChechsum.TYPE_STRING : String := "string"

/-- `PlanStepChechsum.test_if_checksums_equal`: recompute a digest from
`origin` according to `checksum_type` and compare it to
`checksum_value`; unknown types raise `NotImplementedError`, a missing
file raises. -/
def PlanStepChechsum.test_if_checksums_equal (cs : PlanStepChechsum) (w : World)
    (checksum_value : String) : Except SetmeupError Bool :=
  if cs.checksum_type = PlanStepChechsum.TYPE_FILE then do
    let d ← checksum_from_file w cs.origin
    .ok (d == checksum_value)
  else if cs.checksum_type = PlanStepChechsum.TYPE_STRING then
    .ok (checksum_from_string w cs.origin == checksum_value)
  else .error (.notImplementedChecksum cs.checksum_type)

/-- `plan.py` `PlanStep`.  `executed_at` is the in-memory timestamp
(`datetime` modelled as the world clock's `Nat`); `skip` is normalized
by `__init__` via `skip or False`, so a `None` skip argument becomes
`false` (see `mkSkip`). -/
structure PlanStep where
  name : String
  description : Option String
  checksum : PlanStepChechsum
  execute : String
  validation : Option String
  executed_at : Option Nat := none
  skip : Bool := false
deriving DecidableEq

/-- `PlanStep.__init__`'s `self.skip = skip or False`: a Python `None`
(or `False`) becomes `False`. -/
def mkSkip (skip : Option Bool) : Bool := skip.getD false

/-- Modelled from the spec: `check_if_step_ran` is imported by both
`config.py` and `plan.py` from `setmeup.utils` but absent from the
sources.  Spec sections 4.2 and 4.6: invoke the validation command once,
zero exit means satisfied; an absent validation command yields no
verdict (`None`), distinguished from a failing one. -/
def check_if_step_ran (w : World) (t : Nat) : Option String → Option Bool
  | none => none
  | some c => some (w.exit t c == 0)

/-- `BrewfileSetupStep.to_plan_format_v1` and
`ScriptSetupStep.to_plan_format_v1` (`config.py`): build the execute and
validation command strings, snapshot the checksum, and compute `skip` by
running the validation command once (`check_if_step_ran`); returns the
lowered step together with the next external tick. -/
def SetupStep.to_plan_format_v1 (s : SetupStep) (w : World) (t : Nat) : PlanStep × Nat :=
  match s with
  | .brewfileStep bf desc _cc cs =>
    let validation_command := "brew bundle check --file " ++ bf
    ({ name := SetupStep.stepName s,
       description := desc,
       checksum := { value := cs, origin := bf, checksum_type := PlanStepChechsum.TYPE_FILE },
       execute := "brew bundle --file " ++ bf ++ " --no-lock",
       validation := some validation_command,
       skip := mkSkip (check_if_step_ran w t (some validation_command)) }, t + 1)
  | .scriptStep sc desc cc cs =>
    let fileScript := is_file w (some sc)
    let execute_command := if fileScript then "/bin/bash " ++ sc else sc
    let checksum_type :=
      if fileScript then PlanStepChechsum.TYPE_FILE else PlanStepChechsum.TYPE_STRING
    let validation_command : Option String :=
      match cc with
      | some c => if is_file w (some c) then some ("/bin/bash " ++ c) else some c
      | none => none
    ({ name := SetupStep.stepName s,
       description := desc,
       checksum := { value := cs, origin := sc, checksum_type := checksum_type },
       execute := execute_command,
       validation := validation_command,
       skip := mkSkip (check_if_step_ran w t validation_command) },
     t + (if validation_command.isSome then 1 else 0))

/-- `PlanStep.to_dict`: the serialized form of a step.  Note that
`executed_at` is not among the serialized keys. -/
structure PlanStepDoc where
  name : String
  description : Option String
  checksum : PlanStepChechsum
  execute : String
  validation : Option String
  skip : Bool
deriving DecidableEq

/-- `PlanStep.to_dict` (`plan.py` lines 136-144). -/
def PlanStep.to_dict (s : PlanStep) : PlanStepDoc :=
  { name := s.name, description := s.description, checksum := s.checksum,
    execute := s.execute, validation := s.validation, skip := s.skip }

/-- `plan.py` `Plan`: version string (class default `'1.0'`), required
env vars, steps, and the remembered plan-store path `_filename`. -/
structure Plan where
  setmeup_version : String := "1.0"
  required_env_vars : List PlanEnvironmentVariable
  steps_to_execute : List PlanStep
  filename : Option String := none
deriving DecidableEq

/-- The serialized plan document written by `save_to_file` and read by
`load_from_file` (YAML mechanics externalized): `setmeup_version`,
`generated_at`, env vars, and step dictionaries. -/
structure PlanDoc where
  setmeup_version : String
  generated_at : Nat
  required_env_vars : List PlanEnvironmentVariable
  steps_to_execute : List PlanStepDoc
deriving DecidableEq

/-- The document `Plan.save_to_file` writes: a freshly stamped
`generated_at` plus the `to_dict` projections of env vars and steps. -/
def Plan.save_doc (p : Plan) (generated_at : Nat) : PlanDoc :=
  { setmeup_version := p.setmeup_version, generated_at := generated_at,
    required_env_vars := p.required_env_vars,
    steps_to_execute := p.steps_to_execute.map PlanStep.to_dict }

/-- `PlanStep(**step)` as invoked by `load_from_file`: the serialized
keys are passed through, `executed_at` (absent from the document) takes
its default `None`, and `skip` is normalized by `skip or False`. -/
def PlanStep.of_doc (sd : PlanStepDoc) : PlanStep :=
  { name := sd.name, description := sd.description, checksum := sd.checksum,
    execute := sd.execute, validation := sd.validation,
    executed_at := none, skip := mkSkip (some sd.skip) }

/-- `Plan.load_from_file` (YAML mechanics externalized): rebuild the
plan from a document; `Plan.__init__` keeps the class default version
`'1.0'` when the loaded string is falsy, and remembers the filename. -/
def Plan.load_from_doc (filename : String) (d : PlanDoc) : Plan :=
  { setmeup_version := if d.setmeup_version = "" then "1.0" else d.setmeup_version,
    required_env_vars := d.required_env_vars,
    steps_to_execute := d.steps_to_execute.map PlanStep.of_doc,
    filename := some filename }

/-- Python truthiness of `os.environ.get(name)` and of optional string
attributes: a missing or empty string is falsy. -/
def pyTruthy : Option String → Bool
  | none => false
  | some s => s != ""

/-- Python `file.readlines()`: split the content after each newline,
keeping the terminators; a trailing fragment without a newline is kept. -/
def readlinesAux : List Char → List Char → List String
  | [], [] => []
  | [], acc => [String.mk acc.reverse]
  | '\n' :: rest, acc => String.mk (('\n' :: acc).reverse) :: readlinesAux rest []
  | c :: rest, acc => readlinesAux rest (c :: acc)

/-- Python `file.readlines()` on a whole content string. -/
def pyReadlines (s : String) : List String := readlinesAux s.data []

/-- Observable actions of `Plan.apply`, one per log line or side effect
of the source. -/
inductive Event
  | warnChecksum (stepName : String)
  | prompt (varName : String)
  | setEnv (name : String) (value : String)
  | alreadySet (name : String)
  | storeVar (store_in : String) (name : String) (value : String)
  | runValidation (cmd : String)
  | skipStep (stepName : String)
  | execute (cmd : String)
  | stepFailed (stepName : String)
  | stepCompleted (stepName : String)
  | stepUnverified (stepName : String)
  | stepNotCompleted (stepName : String)
  | save (path : String)
deriving DecidableEq

/-- The mutable process state during `apply`: the external tick counter,
the process environment, and the filesystem (mutated by
`store_value`). -/
structure ApplyState where
  tick : Nat
  env : String → Option String
  files : String → Option String

/-- The state `apply` starts from. -/
def initApplyState (w : World) : ApplyState :=
  { tick := 0, env := w.env0, files := w.files }

/-- `PlanEnvironmentVariable.set_value`: leave a truthy environment
value untouched, otherwise set it. -/
def setValueStep (st : ApplyState) (name value : String) : ApplyState × Event :=
  if pyTruthy (st.env name) then (st, .alreadySet name)
  else ({ st with env := fun n => if n = name then some value else st.env n }, .setEnv name value)

/-- `PlanEnvironmentVariable.store_value`: when `store_in` is truthy,
read the stored-variable file (missing file means no lines), replace
every line whose stripped form starts with `export NAME=`, and append a
fresh assignment when none was replaced. -/
def storeValue (w : World) (st : ApplyState) (name : String) (store_in : Option String)
    (value : String) : ApplyState × List Event :=
  match store_in with
  | none => (st, [])
  | some p =>
    if p = "" then (st, [])
    else
      let env_var_set_string := name ++ "=\x22" ++ value ++ "\x22"
      let file_path := w.expand p
      let lineList := pyReadlines ((st.files file_path).getD "")
      let target := "export " ++ name ++ "="
      let newLines := lineList.map fun l =>
        if strStartsWith (pyStrip l) target then "export " ++ env_var_set_string ++ "\n" else l
      let file_updated := lineList.any fun l => strStartsWith (pyStrip l) target
      let newContent :=
        String.join newLines ++
          (if file_updated then "" else "\nexport " ++ env_var_set_string ++ "\n")
      ({ st with files := fun q => if q = file_path then some newContent else st.files q },
       [.storeVar p name value])

/-- One iteration of `apply`'s environment loop: take the recorded
value, prompt when it is `None`, then `set_value` and `store_value`. -/
def applyEnvVar (w : World) (st : ApplyState) (v : PlanEnvironmentVariable) :
    ApplyState × List Event :=
  match v.value with
  | some val =>
    let (st1, e1) := setValueStep st v.name val
    let (st2, e2) := storeValue w st1 v.name v.store_in val
    (st2, e1 :: e2)
  | none =>
    let val := w.input st.tick
    let st0 := { st with tick := st.tick + 1 }
    let (st1, e1) := setValueStep st0 v.name val
    let (st2, e2) := storeValue w st1 v.name v.store_in val
    (st2, .prompt v.name :: e1 :: e2)

/-- `apply`'s loop over `required_env_vars`. -/
def applyEnvVars (w : World) : ApplyState → List PlanEnvironmentVariable → ApplyState × List Event
  | st, [] => (st, [])
  | st, v :: rest =>
    let (st1, evs1) := applyEnvVar w st v
    let (st2, evs2) := applyEnvVars w st1 rest
    (st2, evs1 ++ evs2)

/-- `PlanStep.check_if_ran` combined with the tick bookkeeping: run the
validation command (when present) through `check_if_step_ran`. -/
def runCheck (w : World) (st : ApplyState) (validation : Option String) :
    Option Bool × ApplyState × List Event :=
  match validation with
  | none => (none, st, [])
  | some c =>
    (check_if_step_ran w st.tick (some c), { st with tick := st.tick + 1 }, [.runValidation c])

/-- One iteration of `apply`'s execution loop: skip a step whose
validation passes, otherwise run its execute command; a nonzero exit
breaks the loop (the `executedAt` stamp is skipped, exactly as the
source's `break` precedes it); on success re-validate, log the verdict,
and stamp `executed_at` with the clock.  The final `Bool` is the halt
flag. -/
def execStep (w : World) (st : ApplyState) (s : PlanStep) :
    ApplyState × List Event × PlanStep × Bool :=
  let (ran, st1, evs1) := runCheck w st s.validation
  if ran = some true then (st1, evs1 ++ [.skipStep s.name], s, false)
  else
    let code := w.exit st1.tick s.execute
    let st2 := { st1 with tick := st1.tick + 1 }
    let evs2 := evs1 ++ [.execute s.execute]
    if code ≠ 0 then (st2, evs2 ++ [.stepFailed s.name], s, true)
    else
      let (vp, st3, evs3) := runCheck w st2 s.validation
      let verdict := match vp with
        | none => Event.stepUnverified s.name
        | some true => Event.stepCompleted s.name
        | some false => Event.stepNotCompleted s.name
      let stamped := { s with executed_at := some (w.time st3.tick) }
      ({ st3 with tick := st3.tick + 1 }, evs2 ++ evs3 ++ [verdict], stamped, false)

/-- `apply`'s execution loop: process steps in order until one halts;
the steps after a halt are returned untouched. -/
def execSteps (w : World) : ApplyState → List PlanStep → ApplyState × List Event × List PlanStep
  | st, [] => (st, [], [])
  | st, s :: rest =>
    let (st1, evs1, s1, halted) := execStep w st s
    if halted then (st1, evs1, s1 :: rest)
    else
      let (st2, evs2, rest2) := execSteps w st1 rest
      (st2, evs1 ++ evs2, s1 :: rest2)

/-- `apply`'s pre-check loop: recompute every step's checksum and stop at
the first mismatch, returning its name. -/
def preChecks (w : World) : List PlanStep → Except SetmeupError (Option String)
  | [] => .ok none
  | s :: rest => do
    let checksum_equal ← s.checksum.test_if_checksums_equal w s.checksum.value
    if checksum_equal then preChecks w rest else .ok (some s.name)

/-- The outcome of a normal `apply` return: the emitted events, the final
process state, the (possibly stamped) steps, and the document written by
the final `save_to_file`, when one was written. -/
structure ApplyResult where
  events : List Event
  state : ApplyState
  steps : List PlanStep
  saved : Option (String × PlanDoc)

/-- `Plan.apply` (`plan.py` lines 230-271): checksum pre-checks (an
early `return` on the first mismatch — with no save), then the
environment loop, then the execution loop, and a final
`save_to_file(filename=self._filename)` stamping `generated_at`;
`open(None)` on a missing remembered filename raises. -/
def Plan.apply (p : Plan) (w : World) : Except SetmeupError ApplyResult := do
  let pre ← preChecks w p.steps_to_execute
  match pre with
  | some nm =>
    .ok { events := [.warnChecksum nm], state := initApplyState w,
          steps := p.steps_to_execute, saved := none }
  | none =>
    let (st1, evs1) := applyEnvVars w (initApplyState w) p.required_env_vars
    let (st2, evs2, steps2) := execSteps w st1 p.steps_to_execute
    match p.filename with
    | none => .error .noFilename
    | some f =>
      let doc := Plan.save_doc { p with steps_to_execute := steps2 } (w.time st2.tick)
      .ok { events := evs1 ++ evs2 ++ [.save f],
            state := { st2 with tick := st2.tick + 1 },
            steps := steps2, saved := some (f, doc) }

/-! ## Concrete worlds and plans used to evaluate the model -/

/-- An empty document map (worlds that never load configurations). -/
def noDocs : String → Option ConfigDoc := fun _ => none

/-- A three-document inheritance chain `a.yaml` inherits `b.yaml`
inherits `c.yaml`, each holding one inline script step. -/
def chainWorld : World where
  docs := fun p =>
    if p = "a.yaml" then
      some { inherits := ["b.yaml"], env_vars := [], steps := [.scriptDecl "echo A" none none] }
    else if p = "b.yaml" then
      some { inherits := ["c.yaml"], env_vars := [], steps := [.scriptDecl "echo B" none none] }
    else if p = "c.yaml" then
      some { inherits := [], env_vars := [], steps := [.scriptDecl "echo C" none none] }
    else none
  files := fun _ => none
  H := fun s => s
  exit := fun _ _ => 0
  input := fun _ => ""
  time := fun t => t
  env0 := fun _ => none
  expand := fun s => s

/-- `a.yaml` inherits `b.yaml`; both declare an env var named `TOKEN`
with different values. -/
def collideWorld : World where
  docs := fun p =>
    if p = "a.yaml" then
      some { inherits := ["b.yaml"],
             env_vars := [{ name := "TOKEN", value := some "a-val" }], steps := [] }
    else if p = "b.yaml" then
      some { inherits := [],
             env_vars := [{ name := "TOKEN", value := some "b-val" }], steps := [] }
    else none
  files := fun _ => none
  H := fun s => s
  exit := fun _ _ => 0
  input := fun _ => ""
  time := fun t => t
  env0 := fun _ => none
  expand := fun s => s

/-- `a.yaml` inherits itself. -/
def cyclicWorld : World where
  docs := fun p =>
    if p = "a.yaml" then some { inherits := ["a.yaml"], env_vars := [], steps := [] }
    else none
  files := fun _ => none
  H := fun s => s
  exit := fun _ _ => 0
  input := fun _ => ""
  time := fun t => t
  env0 := fun _ => none
  expand := fun s => s

/-- The `YamlConfig` state of the cyclic document right after its own
keys are read, before `parse_inherited_configs`. -/
def cyclicState : YC :=
  { filepath := "a.yaml", inherits := ["a.yaml"], env_vars := [], steps := [] }

/-- Helper for C3: with the cyclic world, both the loader and the
re-parser exhaust any amount of fuel. -/
theorem cyclic_resolver_exhausts (n : Nat) :
    (resolverAux cyclicWorld n).1 "a.yaml" = .error .outOfFuel ∧
      (resolverAux cyclicWorld n).2 cyclicState = .error .outOfFuel := by
  induction n with
  | zero => exact ⟨rfl, rfl⟩
  | succ n ih =>
    obtain ⟨ih1, ih2⟩ := ih
    have hgo : goInherits (resolverAux cyclicWorld n).1 (resolverAux cyclicWorld n).2
        "a.yaml" ["a.yaml"] = .error .outOfFuel := by
      simp only [goInherits]
      rw [show joinPath (dirname "a.yaml") "a.yaml" = "a.yaml" from rfl, ih1]
      rfl
    have hparse : (resolverAux cyclicWorld (n + 1)).2 cyclicState = .error .outOfFuel := by
      show parseInheritedWith (resolverAux cyclicWorld n).1 (resolverAux cyclicWorld n).2
        cyclicState = .error .outOfFuel
      unfold parseInheritedWith
      rw [show cyclicState.filepath = "a.yaml" from rfl,
        show cyclicState.inherits = ["a.yaml"] from rfl, hgo]
      rfl
    refine ⟨?_, hparse⟩
    have hload : (resolverAux cyclicWorld (n + 1)).1 "a.yaml" =
        (resolverAux cyclicWorld (n + 1)).2 cyclicState := rfl
    rw [hload]
    exact hparse

/-! ## Claims C1-C3 -/

/-- C1 (code bug): for the chain `a.yaml` inherits `b.yaml` inherits
`c.yaml`, the resolved step list is C's step twice, then B's, then
A's — not each exactly once.  `parse_inherited_configs` is invoked a
second time on every inherited configuration that `YamlConfig.__init__`
has already fully resolved, so the grandparent's steps are prepended
twice. -/
theorem inherited_steps_duplicated :
    (load_yaml chainWorld 10 "a.yaml").map (fun c => c.steps.map SetupStep.stepName) =
      .ok ["Execute Script echo C", "Execute Script echo C",
           "Execute Script echo B", "Execute Script echo A"] ∧
    (load_yaml chainWorld 10 "a.yaml").map (fun c => c.steps.map SetupStep.stepName) ≠
      .ok ["Execute Script echo C", "Execute Script echo B", "Execute Script echo A"] := by
  exact ⟨by decide, by decide⟩

/-- C2 (code bug): when `a.yaml` inherits `b.yaml` and both declare an
env var named `TOKEN`, the resolved configuration keeps both
declarations (Python set membership falls back to object identity
because `EnvironmentVariable` defines `__hash__` but not `__eq__`), so
there is no single most-derived winner. -/
theorem env_var_collision_kept_twice :
    (load_yaml collideWorld 10 "a.yaml").map
        (fun c => c.env_vars.countP (fun v => v.name == "TOKEN")) = .ok 2 ∧
    (load_yaml collideWorld 10 "a.yaml").map
        (fun c => (c.env_vars.filter (fun v => v.name == "TOKEN")).map (fun v => v.value)) =
      .ok [some "b-val", some "a-val"] := by
  exact ⟨by decide, by decide⟩

/-- C3 (code bug): a document inheriting itself makes the loader recurse
without bound — every fuel amount is exhausted; no `ConfigurationCycle`
error exists anywhere in the code (the error type of the model has no
cycle constructor because the source raises none). -/
theorem self_inheritance_never_terminates (fuel : Nat) :
    load_yaml cyclicWorld fuel "a.yaml" = .error .outOfFuel :=
  (cyclic_resolver_exhausts fuel).1

/-! ## Helper lemmas about the pre-check loop -/

/-- When every step's recomputed checksum matches, the pre-check loop
reports no mismatch. -/
theorem preChecks_all_ok (w : World) :
    ∀ l : List PlanStep,
      (∀ s ∈ l, s.checksum.test_if_checksums_equal w s.checksum.value = .ok true) →
      preChecks w l = .ok none := by
  intro l
  induction l with
  | nil => intro _; rfl
  | cons s rest ih =>
    intro h
    have hs := h s (List.mem_cons_self s rest)
    have hrest := ih fun x hx => h x (List.mem_cons_of_mem s hx)
    simp only [preChecks, hs]
    simpa using hrest

/-- When every step's checksum recomputation succeeds and at least one
mismatches, the pre-check loop stops at a mismatching step and reports
its name. -/
theorem preChecks_first_bad (w : World) :
    ∀ l : List PlanStep,
      (∀ s ∈ l, ∃ b, s.checksum.test_if_checksums_equal w s.checksum.value = .ok b) →
      (∃ s ∈ l, s.checksum.test_if_checksums_equal w s.checksum.value = .ok false) →
      ∃ s ∈ l, s.checksum.test_if_checksums_equal w s.checksum.value = .ok false ∧
        preChecks w l = .ok (some s.name) := by
  intro l
  induction l with
  | nil => intro _ h; simp at h
  | cons s rest ih =>
    intro hok hbad
    obtain ⟨b, hb⟩ := hok s (List.mem_cons_self s rest)
    cases b with
    | false =>
      refine ⟨s, List.mem_cons_self s rest, hb, ?_⟩
      simp only [preChecks, hb]
      rfl
    | true =>
      have hbad' : ∃ x ∈ rest, x.checksum.test_if_checksums_equal w x.checksum.value = .ok false := by
        obtain ⟨x, hx, hxbad⟩ := hbad
        rcases List.mem_cons.mp hx with heq | hmem
        · subst heq; rw [hb] at hxbad; cases hxbad
        · exact ⟨x, hmem, hxbad⟩
      obtain ⟨x, hx, hxbad, hpre⟩ :=
        ih (fun y hy => hok y (List.mem_cons_of_mem s hy)) hbad'
      refine ⟨x, List.mem_cons_of_mem s hx, hxbad, ?_⟩
      simp only [preChecks, hb]
      simpa using hpre

/-! ## Claim C4 -/

/-- C4: a plan holding a step whose recomputed checksum differs from the
stored one makes `apply` return immediately: the only event is the
warning naming a mismatching step, the process environment is untouched,
no step is mutated, and nothing is saved. -/
theorem checksum_mismatch_aborts (w : World) (p : Plan)
    (hok : ∀ s ∈ p.steps_to_execute,
      ∃ b, s.checksum.test_if_checksums_equal w s.checksum.value = .ok b)
    (hbad : ∃ s ∈ p.steps_to_execute,
      s.checksum.test_if_checksums_equal w s.checksum.value = .ok false) :
    ∃ s ∈ p.steps_to_execute,
      s.checksum.test_if_checksums_equal w s.checksum.value = .ok false ∧
      p.apply w = .ok { events := [.warnChecksum s.name], state := initApplyState w,
                        steps := p.steps_to_execute, saved := none } := by
  obtain ⟨s, hmem, hsbad, hpre⟩ := preChecks_first_bad w p.steps_to_execute hok hbad
  refine ⟨s, hmem, hsbad, ?_⟩
  unfold Plan.apply
  rw [hpre]
  rfl

/-- A world whose digest is the identity, with no files, documents, or
failing commands; used to evaluate apply scenarios. -/
def idWorld : World where
  docs := noDocs
  files := fun _ => none
  H := fun s => s
  exit := fun _ _ => 0
  input := fun _ => ""
  time := fun t => t
  env0 := fun _ => none
  expand := fun s => s

/-- A plan step whose stored checksum value differs from the recomputed
digest of its string origin. -/
def mismatchStep : PlanStep :=
  { name := "s1", description := none,
    checksum := { value := "bad", origin := "c", checksum_type := "string" },
    execute := "c", validation := none }

/-- A one-step plan whose only step has a stale checksum. -/
def mismatchPlan : Plan :=
  { required_env_vars := [], steps_to_execute := [mismatchStep], filename := some "f" }

/-- Witness for C4 at the concrete stale plan. -/
theorem checksum_mismatch_aborts_witness :
    (∀ s ∈ mismatchPlan.steps_to_execute,
      ∃ b, s.checksum.test_if_checksums_equal idWorld s.checksum.value = .ok b) ∧
    (∃ s ∈ mismatchPlan.steps_to_execute,
      s.checksum.test_if_checksums_equal idWorld s.checksum.value = .ok false) ∧
    (∃ s ∈ mismatchPlan.steps_to_execute,
      s.checksum.test_if_checksums_equal idWorld s.checksum.value = .ok false ∧
      mismatchPlan.apply idWorld =
        .ok { events := [.warnChecksum s.name], state := initApplyState idWorld,
              steps := mismatchPlan.steps_to_execute, saved := none }) := by
  have hok : ∀ s ∈ mismatchPlan.steps_to_execute,
      ∃ b, s.checksum.test_if_checksums_equal idWorld s.checksum.value = .ok b := by
    intro s hs
    simp only [mismatchPlan, List.mem_singleton] at hs
    subst hs
    exact ⟨false, rfl⟩
  have hbad : ∃ s ∈ mismatchPlan.steps_to_execute,
      s.checksum.test_if_checksums_equal idWorld s.checksum.value = .ok false :=
    ⟨mismatchStep, List.mem_singleton_self _, rfl⟩
  exact ⟨hok, hbad, checksum_mismatch_aborts idWorld mismatchPlan hok hbad⟩

/-! ## The successful branch of apply -/

/-- When every pre-check passes and a plan store path is remembered,
`apply` runs the environment loop and the execution loop and ends with
`save_to_file` on that path; stated through projections of the loop
results. -/
theorem apply_success_eq (w : World) (p : Plan) (f : String) (hf : p.filename = some f)
    (hall : ∀ s ∈ p.steps_to_execute,
      s.checksum.test_if_checksums_equal w s.checksum.value = .ok true) :
    p.apply w = .ok
      { events := (applyEnvVars w (initApplyState w) p.required_env_vars).2 ++
          (execSteps w (applyEnvVars w (initApplyState w) p.required_env_vars).1
            p.steps_to_execute).2.1 ++ [.save f],
        state := { (execSteps w (applyEnvVars w (initApplyState w) p.required_env_vars).1
            p.steps_to_execute).1 with
          tick := (execSteps w (applyEnvVars w (initApplyState w) p.required_env_vars).1
            p.steps_to_execute).1.tick + 1 },
        steps := (execSteps w (applyEnvVars w (initApplyState w) p.required_env_vars).1
            p.steps_to_execute).2.2,
        saved := some (f, Plan.save_doc
          { p with steps_to_execute :=
              (execSteps w (applyEnvVars w (initApplyState w) p.required_env_vars).1
                p.steps_to_execute).2.2 }
          (w.time (execSteps w (applyEnvVars w (initApplyState w) p.required_env_vars).1
            p.steps_to_execute).1.tick)) } := by
  have hpre := preChecks_all_ok w p.steps_to_execute hall
  unfold Plan.apply
  rw [hpre, hf]
  rfl

/-! ## Claim C5 -/

/-- C5 counterexample: on a plan aborted by a checksum mismatch, `apply`
returns without persisting anything — no saved document and no save
event — contradicting "regardless of the terminal state reached ... the
plan is persisted ... before apply returns". -/
theorem abort_skips_save_counterexample :
    (mismatchPlan.apply idWorld).map (fun r => r.saved) = .ok none ∧
    (mismatchPlan.apply idWorld).map (fun r => r.events) = .ok [.warnChecksum "s1"] := by
  exact ⟨by decide, by decide⟩

/-- C5 amended: when the checksum pre-checks all pass (terminal states
Done and Halted), the plan is persisted back to the last-used plan store
path before `apply` returns; an invocation aborted by a checksum
mismatch returns without persisting. -/
theorem apply_persists_amended (w : World) (p : Plan) (f : String)
    (hf : p.filename = some f) :
    ((∀ s ∈ p.steps_to_execute,
        s.checksum.test_if_checksums_equal w s.checksum.value = .ok true) →
      ∃ r d, p.apply w = .ok r ∧ r.saved = some (f, d) ∧
        ∃ l, r.events = l ++ [.save f]) ∧
    ((∀ s ∈ p.steps_to_execute,
        ∃ b, s.checksum.test_if_checksums_equal w s.checksum.value = .ok b) →
      (∃ s ∈ p.steps_to_execute,
        s.checksum.test_if_checksums_equal w s.checksum.value = .ok false) →
      ∃ r, p.apply w = .ok r ∧ r.saved = none) := by
  constructor
  · intro hall
    refine ⟨_, _, apply_success_eq w p f hf hall, rfl, ?_⟩
    exact ⟨(applyEnvVars w (initApplyState w) p.required_env_vars).2 ++
      (execSteps w (applyEnvVars w (initApplyState w) p.required_env_vars).1
        p.steps_to_execute).2.1, rfl⟩
  · intro hok hbad
    obtain ⟨s, _, _, hpre⟩ := preChecks_first_bad w p.steps_to_execute hok hbad
    have happ : p.apply w =
        .ok { events := [.warnChecksum s.name], state := initApplyState w,
              steps := p.steps_to_execute, saved := none } := by
      unfold Plan.apply
      rw [hpre]
      rfl
    exact ⟨_, happ, rfl⟩

/-- A step whose stored checksum matches the identity digest of its
string origin. -/
def freshStep : PlanStep :=
  { name := "s1", description := none,
    checksum := { value := "c", origin := "c", checksum_type := "string" },
    execute := "c", validation := none }

/-- A one-step plan that passes its pre-checks, with a remembered path. -/
def freshPlan : Plan :=
  { required_env_vars := [], steps_to_execute := [freshStep], filename := some "f" }

/-- Witness for C5 at a concrete plan with a remembered path. -/
theorem apply_persists_amended_witness :
    freshPlan.filename = some "f" ∧
    (((∀ s ∈ freshPlan.steps_to_execute,
        s.checksum.test_if_checksums_equal idWorld s.checksum.value = .ok true) →
      ∃ r d, freshPlan.apply idWorld = .ok r ∧ r.saved = some ("f", d) ∧
        ∃ l, r.events = l ++ [.save "f"]) ∧
    ((∀ s ∈ freshPlan.steps_to_execute,
        ∃ b, s.checksum.test_if_checksums_equal idWorld s.checksum.value = .ok b) →
      (∃ s ∈ freshPlan.steps_to_execute,
        s.checksum.test_if_checksums_equal idWorld s.checksum.value = .ok false) →
      ∃ r, freshPlan.apply idWorld = .ok r ∧ r.saved = none)) :=
  ⟨rfl, apply_persists_amended idWorld freshPlan "f" rfl⟩

/-! ## Helper lemmas about the execution loop -/

/-- One execution-loop iteration either halts with a trailing
`stepFailed` event for that step, or does not halt and emits no
`stepFailed` event. -/
theorem execStep_cases (w : World) (st : ApplyState) (s : PlanStep) :
    ((execStep w st s).2.2.2 = true ∧
      ∃ l, (execStep w st s).2.1 = l ++ [.stepFailed s.name] ∧
        ∀ nm, Event.stepFailed nm ∉ l) ∨
    ((execStep w st s).2.2.2 = false ∧
      ∀ nm, Event.stepFailed nm ∉ (execStep w st s).2.1) := by
  cases hv : s.validation with
  | none =>
    by_cases hc : w.exit st.tick s.execute = 0
    · refine Or.inr ⟨?_, ?_⟩ <;>
        simp [execStep, runCheck, hv, hc]
    · refine Or.inl ⟨?_, [.execute s.execute], ?_, ?_⟩ <;>
        simp [execStep, runCheck, hv, hc]
  | some c =>
    by_cases hr : w.exit st.tick c = 0
    · refine Or.inr ⟨?_, ?_⟩ <;>
        simp [execStep, runCheck, check_if_step_ran, hv, hr]
    · by_cases hc : w.exit (st.tick + 1) s.execute = 0
      · cases hb : w.exit (st.tick + 1 + 1) c == 0 <;>
          · refine Or.inr ⟨?_, ?_⟩ <;>
              simp [execStep, runCheck, check_if_step_ran, hv, hr, hc, hb]
      · refine Or.inl ⟨?_, [.runValidation c, .execute s.execute], ?_, ?_⟩ <;>
          simp [execStep, runCheck, check_if_step_ran, hv, hr, hc]

/-- A `stepFailed` event emitted by the execution loop is always the
last event of the loop's trace: the `break` prevents any later step's
validation or execution. -/
theorem execSteps_failed_shape (w : World) :
    ∀ (l : List PlanStep) (st : ApplyState) (nm : String),
      Event.stepFailed nm ∈ (execSteps w st l).2.1 →
      ∃ pre, (execSteps w st l).2.1 = pre ++ [.stepFailed nm] := by
  intro l
  induction l with
  | nil => intro st nm h; simp [execSteps] at h
  | cons s rest ih =>
    intro st nm h
    rcases hE : execStep w st s with ⟨st1, evs1, s1, halted⟩
    have hcases := execStep_cases w st s
    rw [hE] at hcases
    simp only at hcases
    cases halted with
    | true =>
      rcases hcases with ⟨_, l0, hev, hnot⟩ | ⟨hbad, _⟩
      · have hevents : (execSteps w st (s :: rest)).2.1 = evs1 := by
          simp [execSteps, hE]
        rw [hevents] at h ⊢
        rw [hev] at h ⊢
        rcases List.mem_append.mp h with h1 | h2
        · exact absurd h1 (hnot nm)
        · have hnm : nm = s.name := by simpa using h2
          subst hnm
          exact ⟨l0, rfl⟩
      · cases hbad
    | false =>
      rcases hcases with ⟨hbad, _⟩ | ⟨_, hnot⟩
      · cases hbad
      · have hevents : (execSteps w st (s :: rest)).2.1 =
            evs1 ++ (execSteps w st1 rest).2.1 := by
          simp [execSteps, hE]
        rw [hevents] at h ⊢
        rcases List.mem_append.mp h with h1 | h2
        · exact absurd h1 (hnot nm)
        · obtain ⟨pre, hp⟩ := ih st1 nm h2
          refine ⟨evs1 ++ pre, ?_⟩
          rw [hp, List.append_assoc]

/-! ## Helper lemmas about the environment loop -/

/-- `set_value` logs either an already-set notice or a set event. -/
theorem setValueStep_snd (st : ApplyState) (n val : String) :
    (setValueStep st n val).2 = .alreadySet n ∨ (setValueStep st n val).2 = .setEnv n val := by
  unfold setValueStep
  split
  · exact Or.inl rfl
  · exact Or.inr rfl

/-- `store_value` emits no event without a truthy `store_in`, and
exactly one store event with one. -/
theorem storeValue_snd (w : World) (st : ApplyState) (n : String) (si : Option String)
    (val : String) :
    (storeValue w st n si val).2 = [] ∨
      ∃ p, si = some p ∧ (storeValue w st n si val).2 = [.storeVar p n val] := by
  cases si with
  | none => exact Or.inl rfl
  | some p =>
    by_cases hp : p = ""
    · left; simp [storeValue, hp]
    · right; exact ⟨p, rfl, by simp [storeValue, hp]⟩

/-- Every event of one environment-loop iteration is a prompt (only
when the recorded value is `None`), an already-set notice, a set event,
or a store event for that variable. -/
theorem applyEnvVar_events_shape (w : World) (st : ApplyState) (v : PlanEnvironmentVariable) :
    ∀ e ∈ (applyEnvVar w st v).2,
      (e = .prompt v.name ∧ v.value = none) ∨ e = .alreadySet v.name ∨
      (∃ val, e = .setEnv v.name val) ∨
      (∃ p val, v.store_in = some p ∧ e = .storeVar p v.name val) := by
  intro e he
  cases hv : v.value with
  | some val =>
    rcases hS : setValueStep st v.name val with ⟨st1, e1⟩
    rcases hV : storeValue w st1 v.name v.store_in val with ⟨st2, e2⟩
    have hS2 := setValueStep_snd st v.name val
    have hV2 := storeValue_snd w st1 v.name v.store_in val
    rw [hS] at hS2
    rw [hV] at hV2
    simp only at hS2 hV2
    simp only [applyEnvVar, hv, hS, hV, List.mem_cons] at he
    rcases he with rfl | h2
    · rcases hS2 with h | h
      · exact Or.inr (Or.inl h)
      · exact Or.inr (Or.inr (Or.inl ⟨val, h⟩))
    · rcases hV2 with h | ⟨p, hsi, h⟩
      · rw [h] at h2; cases h2
      · rw [h] at h2
        simp only [List.mem_singleton] at h2
        exact Or.inr (Or.inr (Or.inr ⟨p, val, hsi, h2⟩))
  | none =>
    rcases hS : setValueStep { st with tick := st.tick + 1 } v.name (w.input st.tick)
      with ⟨st1, e1⟩
    rcases hV : storeValue w st1 v.name v.store_in (w.input st.tick) with ⟨st2, e2⟩
    have hS2 := setValueStep_snd { st with tick := st.tick + 1 } v.name (w.input st.tick)
    have hV2 := storeValue_snd w st1 v.name v.store_in (w.input st.tick)
    rw [hS] at hS2
    rw [hV] at hV2
    simp only at hS2 hV2
    simp only [applyEnvVar, hv, hS, hV, List.mem_cons] at he
    rcases he with rfl | rfl | h2
    · exact Or.inl ⟨rfl, rfl⟩
    · rcases hS2 with h | h
      · exact Or.inr (Or.inl h)
      · exact Or.inr (Or.inr (Or.inl ⟨_, h⟩))
    · rcases hV2 with h | ⟨p, hsi, h⟩
      · rw [h] at h2; cases h2
      · rw [h] at h2
        simp only [List.mem_singleton] at h2
        exact Or.inr (Or.inr (Or.inr ⟨p, _, hsi, h2⟩))

/-- Shape of the whole environment loop's trace. -/
theorem applyEnvVars_events_shape (w : World) :
    ∀ (l : List PlanEnvironmentVariable) (st : ApplyState), ∀ e ∈ (applyEnvVars w st l).2,
      ∃ v ∈ l, (e = .prompt v.name ∧ v.value = none) ∨ e = .alreadySet v.name ∨
        (∃ val, e = .setEnv v.name val) ∨
        (∃ p val, v.store_in = some p ∧ e = .storeVar p v.name val) := by
  intro l
  induction l with
  | nil => intro st e he; simp [applyEnvVars] at he
  | cons v rest ih =>
    intro st e he
    rcases hA : applyEnvVar w st v with ⟨st1, evs1⟩
    simp only [applyEnvVars, hA, List.mem_append] at he
    rcases he with h1 | h2
    · have := applyEnvVar_events_shape w st v e (by rw [hA]; exact h1)
      exact ⟨v, List.mem_cons_self v rest, this⟩
    · obtain ⟨x, hx, hshape⟩ := ih st1 e h2
      exact ⟨x, List.mem_cons_of_mem v hx, hshape⟩

/-- The environment loop never emits a step-failure event. -/
theorem stepFailed_not_in_envEvents (w : World) (l : List PlanEnvironmentVariable)
    (st : ApplyState) (nm : String) : Event.stepFailed nm ∉ (applyEnvVars w st l).2 := by
  intro hmem
  obtain ⟨v, _, hshape⟩ := applyEnvVars_events_shape w l st _ hmem
  rcases hshape with ⟨h, _⟩ | h | ⟨val, h⟩ | ⟨p, val, _, h⟩ <;> simp at h

/-! ## Claim C6 -/

/-- C6: whenever a step's execute command exits nonzero during an apply
whose pre-checks pass, the failure event is followed by nothing but the
final save: no later step's validation or execute command runs, and
`apply` returns normally (the raised `CalledProcessError` is caught)
after saving state. -/
theorem step_failure_halts_and_saves (w : World) (p : Plan) (f : String)
    (hf : p.filename = some f)
    (hall : ∀ s ∈ p.steps_to_execute,
      s.checksum.test_if_checksums_equal w s.checksum.value = .ok true) :
    ∃ r, p.apply w = .ok r ∧ ∀ nm, Event.stepFailed nm ∈ r.events →
      ∃ l, r.events = l ++ [.stepFailed nm, .save f] := by
  refine ⟨_, apply_success_eq w p f hf hall, ?_⟩
  intro nm hmem
  simp only at hmem ⊢
  rcases List.mem_append.mp hmem with h1 | h2
  · rcases List.mem_append.mp h1 with h3 | h4
    · exact absurd h3 (stepFailed_not_in_envEvents w _ _ nm)
    · obtain ⟨pre, hp⟩ := execSteps_failed_shape w p.steps_to_execute _ nm h4
      refine ⟨(applyEnvVars w (initApplyState w) p.required_env_vars).2 ++ pre, ?_⟩
      rw [hp]
      simp [List.append_assoc]
  · simp at h2

/-- `store_value` does not touch the process environment. -/
theorem storeValue_fst_env (w : World) (st : ApplyState) (n : String) (si : Option String)
    (val : String) : (storeValue w st n si val).1.env = st.env := by
  cases si with
  | none => rfl
  | some p =>
    by_cases hp : p = ""
    · simp [storeValue, hp]
    · simp [storeValue, hp]

/-- `set_value` leaves a truthy environment entry untouched. -/
theorem setValueStep_env_preserve (st : ApplyState) (n val nm : String)
    (h : pyTruthy (st.env nm) = true) : (setValueStep st n val).1.env nm = st.env nm := by
  unfold setValueStep
  split
  · rfl
  · rename_i hfalse
    simp only
    by_cases hn : nm = n
    · subst hn
      rw [h] at hfalse
      cases hfalse rfl
    · simp [hn]

/-- One environment-loop iteration leaves a truthy entry untouched. -/
theorem applyEnvVar_env_preserve (w : World) (st : ApplyState) (v : PlanEnvironmentVariable)
    (nm : String) (h : pyTruthy (st.env nm) = true) :
    (applyEnvVar w st v).1.env nm = st.env nm := by
  cases hv : v.value with
  | some val =>
    rcases hS : setValueStep st v.name val with ⟨st1, e1⟩
    rcases hV : storeValue w st1 v.name v.store_in val with ⟨st2, e2⟩
    have h1 := setValueStep_env_preserve st v.name val nm h
    have h2 := storeValue_fst_env w st1 v.name v.store_in val
    rw [hS] at h1
    rw [hV] at h2
    simp only at h1 h2
    simp only [applyEnvVar, hv, hS, hV]
    rw [congrFun h2 nm, h1]
  | none =>
    rcases hS : setValueStep { st with tick := st.tick + 1 } v.name (w.input st.tick)
      with ⟨st1, e1⟩
    rcases hV : storeValue w st1 v.name v.store_in (w.input st.tick) with ⟨st2, e2⟩
    have h1 := setValueStep_env_preserve { st with tick := st.tick + 1 } v.name
      (w.input st.tick) nm h
    have h2 := storeValue_fst_env w st1 v.name v.store_in (w.input st.tick)
    rw [hS] at h1
    rw [hV] at h2
    simp only at h1 h2
    simp only [applyEnvVar, hv, hS, hV]
    rw [congrFun h2 nm, h1]

/-- The whole environment loop leaves truthy entries untouched. -/
theorem applyEnvVars_env_preserve (w : World) :
    ∀ (l : List PlanEnvironmentVariable) (st : ApplyState) (nm : String),
      pyTruthy (st.env nm) = true → (applyEnvVars w st l).1.env nm = st.env nm := by
  intro l
  induction l with
  | nil => intro st nm _; rfl
  | cons v rest ih =>
    intro st nm h
    rcases hA : applyEnvVar w st v with ⟨st1, evs1⟩
    have h1 := applyEnvVar_env_preserve w st v nm h
    rw [hA] at h1
    simp only at h1
    simp only [applyEnvVars, hA]
    have htr : pyTruthy (st1.env nm) = true := by rw [h1]; exact h
    rw [ih st1 nm htr, h1]

/-- A variable with no recorded value is prompted for. -/
theorem applyEnvVar_prompt_of_none (w : World) (st : ApplyState)
    (v : PlanEnvironmentVariable) (hv : v.value = none) :
    Event.prompt v.name ∈ (applyEnvVar w st v).2 := by
  rcases hS : setValueStep { st with tick := st.tick + 1 } v.name (w.input st.tick)
    with ⟨st1, e1⟩
  rcases hV : storeValue w st1 v.name v.store_in (w.input st.tick) with ⟨st2, e2⟩
  simp [applyEnvVar, hv, hS, hV]

/-- The environment loop prompts exactly for the variables whose
recorded value is `None` — independently of the process environment. -/
theorem applyEnvVars_prompt_mem (w : World) :
    ∀ (l : List PlanEnvironmentVariable) (st : ApplyState) (nm : String),
      (Event.prompt nm ∈ (applyEnvVars w st l).2 ↔
        ∃ v ∈ l, v.name = nm ∧ v.value = none) := by
  intro l
  induction l with
  | nil => intro st nm; simp [applyEnvVars]
  | cons v rest ih =>
    intro st nm
    rcases hA : applyEnvVar w st v with ⟨st1, evs1⟩
    simp only [applyEnvVars, hA, List.mem_append]
    constructor
    · rintro (h1 | h2)
      · have := applyEnvVar_events_shape w st v _ (by rw [hA]; exact h1)
        rcases this with ⟨heq, hval⟩ | heq | ⟨val, heq⟩ | ⟨p, val, _, heq⟩
        · have : v.name = nm := by
            have := heq
            simp only [Event.prompt.injEq] at this
            exact this.symm
          exact ⟨v, List.mem_cons_self v rest, this, hval⟩
        · simp at heq
        · simp at heq
        · simp at heq
      · obtain ⟨x, hx, hn, hval⟩ := (ih st1 nm).mp h2
        exact ⟨x, List.mem_cons_of_mem v hx, hn, hval⟩
    · rintro ⟨x, hx, hn, hval⟩
      rcases List.mem_cons.mp hx with rfl | hmem
      · left
        have := applyEnvVar_prompt_of_none w st x hval
        rw [hA] at this
        simp only at this
        rw [hn] at this
        exact this
      · right
        exact (ih st1 nm).mpr ⟨x, hmem, hn, hval⟩

/-- A variable with a truthy `store_in` always gets its stored-file
update. -/
theorem applyEnvVar_store_mem (w : World) (st : ApplyState) (v : PlanEnvironmentVariable)
    (p : String) (hsi : v.store_in = some p) (hp : p ≠ "") :
    ∃ val, Event.storeVar p v.name val ∈ (applyEnvVar w st v).2 := by
  cases hv : v.value with
  | some val =>
    rcases hS : setValueStep st v.name val with ⟨st1, e1⟩
    refine ⟨val, ?_⟩
    simp [applyEnvVar, hv, hS, storeValue, hsi, hp]
  | none =>
    rcases hS : setValueStep { st with tick := st.tick + 1 } v.name (w.input st.tick)
      with ⟨st1, e1⟩
    refine ⟨w.input st.tick, ?_⟩
    simp [applyEnvVar, hv, hS, storeValue, hsi, hp]

/-- Store events for every variable with a truthy `store_in`. -/
theorem applyEnvVars_store_mem (w : World) :
    ∀ (l : List PlanEnvironmentVariable) (st : ApplyState),
      ∀ v ∈ l, ∀ p, v.store_in = some p → p ≠ "" →
        ∃ val, Event.storeVar p v.name val ∈ (applyEnvVars w st l).2 := by
  intro l
  induction l with
  | nil => intro st v hv; simp at hv
  | cons x rest ih =>
    intro st v hv p hsi hp
    rcases hA : applyEnvVar w st x with ⟨st1, evs1⟩
    simp only [applyEnvVars, hA, List.mem_append]
    rcases List.mem_cons.mp hv with rfl | hmem
    · obtain ⟨val, hval⟩ := applyEnvVar_store_mem w st v p hsi hp
      rw [hA] at hval
      simp only at hval
      exact ⟨val, Or.inl hval⟩
    · obtain ⟨val, hval⟩ := ih st1 v hmem p hsi hp
      exact ⟨val, Or.inr hval⟩

/-- The execution loop never prompts. -/
theorem execStep_no_prompt (w : World) (st : ApplyState) (s : PlanStep) (nm : String) :
    Event.prompt nm ∉ (execStep w st s).2.1 := by
  cases hv : s.validation with
  | none =>
    by_cases hc : w.exit st.tick s.execute = 0
    · simp [execStep, runCheck, hv, hc]
    · simp [execStep, runCheck, hv, hc]
  | some c =>
    by_cases hr : w.exit st.tick c = 0
    · simp [execStep, runCheck, check_if_step_ran, hv, hr]
    · by_cases hc : w.exit (st.tick + 1) s.execute = 0
      · cases hb : w.exit (st.tick + 1 + 1) c == 0 <;>
          simp [execStep, runCheck, check_if_step_ran, hv, hr, hc, hb]
      · simp [execStep, runCheck, check_if_step_ran, hv, hr, hc]

/-- The whole execution loop never prompts. -/
theorem execSteps_no_prompt (w : World) :
    ∀ (l : List PlanStep) (st : ApplyState) (nm : String),
      Event.prompt nm ∉ (execSteps w st l).2.1 := by
  intro l
  induction l with
  | nil => intro st nm; simp [execSteps]
  | cons s rest ih =>
    intro st nm
    rcases hE : execStep w st s with ⟨st1, evs1, s1, halted⟩
    have hne := execStep_no_prompt w st s nm
    rw [hE] at hne
    simp only at hne
    cases halted with
    | true => simpa [execSteps, hE] using hne
    | false =>
      intro hmem
      simp [execSteps, hE] at hmem
      rcases hmem with h1 | h2
      · exact hne h1
      · exact ih st1 nm h2

/-- One execution-loop iteration does not touch the environment. -/
theorem execStep_env (w : World) (st : ApplyState) (s : PlanStep) :
    (execStep w st s).1.env = st.env := by
  cases hv : s.validation with
  | none =>
    by_cases hc : w.exit st.tick s.execute = 0
    · simp [execStep, runCheck, hv, hc]
    · simp [execStep, runCheck, hv, hc]
  | some c =>
    by_cases hr : w.exit st.tick c = 0
    · simp [execStep, runCheck, check_if_step_ran, hv, hr]
    · by_cases hc : w.exit (st.tick + 1) s.execute = 0
      · simp [execStep, runCheck, check_if_step_ran, hv, hr, hc]
      · simp [execStep, runCheck, check_if_step_ran, hv, hr, hc]

/-- The whole execution loop does not touch the environment. -/
theorem execSteps_env (w : World) :
    ∀ (l : List PlanStep) (st : ApplyState), (execSteps w st l).1.env = st.env := by
  intro l
  induction l with
  | nil => intro st; rfl
  | cons s rest ih =>
    intro st
    rcases hE : execStep w st s with ⟨st1, evs1, s1, halted⟩
    have henv := execStep_env w st s
    rw [hE] at henv
    simp only at henv
    cases halted with
    | true => simpa [execSteps, hE] using henv
    | false =>
      simp [execSteps, hE, ih st1, henv]

/-! ## Claim C9 -/

/-- C9 amended: during an apply whose pre-checks pass, a required
variable whose name has a truthy (present and non-empty) value in the
process environment keeps that value untouched; `apply` prompts exactly
for the variables whose recorded plan value is `None` — prompting is
decided by the recorded value, not by environment presence; and for
every variable with a truthy `store_in` path the persisted-file update
runs. -/
theorem env_handling_amended (w : World) (p : Plan) (f : String)
    (hf : p.filename = some f)
    (hall : ∀ s ∈ p.steps_to_execute,
      s.checksum.test_if_checksums_equal w s.checksum.value = .ok true) :
    ∃ r, p.apply w = .ok r ∧
      (∀ nm, pyTruthy (w.env0 nm) = true → r.state.env nm = w.env0 nm) ∧
      (∀ nm, Event.prompt nm ∈ r.events ↔
        ∃ v ∈ p.required_env_vars, v.name = nm ∧ v.value = none) ∧
      (∀ v ∈ p.required_env_vars, ∀ sp, v.store_in = some sp → sp ≠ "" →
        ∃ val, Event.storeVar sp v.name val ∈ r.events) := by
  refine ⟨_, apply_success_eq w p f hf hall, ?_, ?_, ?_⟩
  · intro nm h
    show (execSteps w (applyEnvVars w (initApplyState w) p.required_env_vars).1
      p.steps_to_execute).1.env nm = w.env0 nm
    rw [congrFun (execSteps_env w p.steps_to_execute _) nm]
    exact applyEnvVars_env_preserve w p.required_env_vars (initApplyState w) nm h
  · intro nm
    have hiff := applyEnvVars_prompt_mem w p.required_env_vars (initApplyState w) nm
    have hne2 := execSteps_no_prompt w p.steps_to_execute
      (applyEnvVars w (initApplyState w) p.required_env_vars).1 nm
    simp only
    simp [List.mem_append, hiff, hne2]
  · intro v hv sp hsp hne
    obtain ⟨val, hmem⟩ :=
      applyEnvVars_store_mem w p.required_env_vars (initApplyState w) v hv sp hsp hne
    refine ⟨val, ?_⟩
    simp only
    exact List.mem_append_left _ (List.mem_append_left _ hmem)

/-! ## Claim C10 -/

/-- C10: a lowered plan step's `skip` flag is true exactly when the
step has a validation command and its single invocation at lowering
time exits zero; a nonzero exit or an absent validation command yields
`skip = false`. -/
theorem skip_iff_validation_zero (s : SetupStep) (w : World) (t : Nat) :
    ((s.to_plan_format_v1 w t).1.skip = true ↔
      ∃ v, (s.to_plan_format_v1 w t).1.validation = some v ∧ w.exit t v = 0) := by
  cases s with
  | brewfileStep bf desc cc cs =>
    simp [SetupStep.to_plan_format_v1, mkSkip, check_if_step_ran]
  | scriptStep sc desc cc cs =>
    cases cc with
    | none => simp [SetupStep.to_plan_format_v1, mkSkip, check_if_step_ran]
    | some c =>
      by_cases hfile : is_file w (some c)
      · simp [SetupStep.to_plan_format_v1, mkSkip, check_if_step_ran, hfile]
      · simp [SetupStep.to_plan_format_v1, mkSkip, check_if_step_ran, hfile]

/-- A world in which every external command exits nonzero. -/
def failWorld : World := { idWorld with exit := fun _ _ => 1 }

/-- A step with a fresh checksum, no validation command, and an execute
command that will fail in `failWorld`. -/
def failStep : PlanStep :=
  { name := "s1", description := none,
    checksum := { value := "c", origin := "c", checksum_type := "string" },
    execute := "boom", validation := none }

/-- A one-step plan whose step's execution fails under `failWorld`. -/
def failPlan : Plan :=
  { required_env_vars := [], steps_to_execute := [failStep], filename := some "f" }

/-- Witness for C6 at a concrete plan whose single step fails. -/
theorem step_failure_halts_and_saves_witness :
    failPlan.filename = some "f" ∧
    (∀ s ∈ failPlan.steps_to_execute,
      s.checksum.test_if_checksums_equal failWorld s.checksum.value = .ok true) ∧
    (∃ r, failPlan.apply failWorld = .ok r ∧ ∀ nm, Event.stepFailed nm ∈ r.events →
      ∃ l, r.events = l ++ [.stepFailed nm, .save "f"]) := by
  have hall : ∀ s ∈ failPlan.steps_to_execute,
      s.checksum.test_if_checksums_equal failWorld s.checksum.value = .ok true := by
    intro s hs
    simp only [failPlan, List.mem_singleton] at hs
    subst hs
    rfl
  exact ⟨rfl, hall, step_failure_halts_and_saves failWorld failPlan "f" rfl hall⟩

/-! ## Claim C7 -/

/-- A world where the third external command (the second step's execute,
at tick 2) exits nonzero and every other one succeeds; the clock equals
the tick. -/
def haltWorld : World := { idWorld with exit := fun t _ => if t = 2 then 1 else 0 }

/-- A plan step with a fresh string checksum and no validation. -/
def haltStep (n e : String) : PlanStep :=
  { name := n, description := none,
    checksum := { value := e, origin := e, checksum_type := "string" },
    execute := e, validation := none }

/-- A three-step plan whose second step's execute command fails under
`haltWorld`. -/
def haltPlan : Plan :=
  { required_env_vars := [],
    steps_to_execute := [haltStep "s1" "e1", haltStep "s2" "e2", haltStep "s3" "e3"],
    filename := some "plan.yaml" }

/-- C7 (code bug): in the three-step plan whose second step fails,
step 1 executes and is stamped in memory, step 2 is attempted but left
unstamped (the `break` on failure precedes the `executed_at` stamp),
step 3 never runs — and the re-saved document's steps equal the
unapplied plan's serialized steps, because `PlanStep.to_dict` omits
`executed_at`: neither step 1's completion nor step 2's failure is
durably reflected. -/
theorem partial_failure_not_persisted :
    (haltPlan.apply haltWorld).map (fun r => r.steps.map (fun s => s.executed_at)) =
      .ok [some 1, none, none] ∧
    (haltPlan.apply haltWorld).map (fun r => r.events) =
      .ok [.execute "e1", .stepUnverified "s1", .execute "e2", .stepFailed "s2",
           .save "plan.yaml"] ∧
    (haltPlan.apply haltWorld).map (fun r => r.saved.map (fun x => x.2.steps_to_execute)) =
      .ok (some (haltPlan.steps_to_execute.map PlanStep.to_dict)) := by
  exact ⟨by decide, by decide, by decide⟩

/-! ## Claim C8 -/

/-- A plan with a stamped, skipped step and a stored env var, used to
exercise the save/load round trip. -/
def stampedStep : PlanStep :=
  { name := "s1", description := some "d",
    checksum := { value := "cv", origin := "co", checksum_type := "file" },
    execute := "e", validation := some "v", executed_at := some 5, skip := true }

/-- A plan containing `stampedStep`. -/
def stampedPlan : Plan :=
  { required_env_vars := [{ name := "X", store_in := some "~/.zshrc", value := some "v" }],
    steps_to_execute := [stampedStep], filename := some "g" }

/-- C8 counterexample: a step's `executed_at` does not survive the
round trip — `to_dict` never serializes it, and the loader resets it to
`None`. -/
theorem roundtrip_drops_executed_at_counterexample :
    (Plan.load_from_doc "f" (stampedPlan.save_doc 0)).steps_to_execute.map
      (fun s => s.executed_at) = [none] ∧
    stampedPlan.steps_to_execute.map (fun s => s.executed_at) = [some 5] := by
  exact ⟨by decide, by decide⟩

/-- C8 amended: `load(save(p))` preserves the version string (when it
is non-empty — `Plan.__init__` replaces a falsy version by the class
default), the required env vars with all their fields, and every step
field except `executed_at`, which is reset to `None`; the loader
remembers the path it read from. -/
theorem roundtrip_amended (p : Plan) (t : Nat) (f : String) (hv : p.setmeup_version ≠ "") :
    (Plan.load_from_doc f (p.save_doc t)).setmeup_version = p.setmeup_version ∧
    (Plan.load_from_doc f (p.save_doc t)).required_env_vars = p.required_env_vars ∧
    (Plan.load_from_doc f (p.save_doc t)).steps_to_execute =
      p.steps_to_execute.map (fun s => { s with executed_at := none }) ∧
    (Plan.load_from_doc f (p.save_doc t)).filename = some f := by
  refine ⟨?_, rfl, ?_, rfl⟩
  · simp [Plan.load_from_doc, Plan.save_doc, hv]
  · show (p.steps_to_execute.map PlanStep.to_dict).map PlanStep.of_doc = _
    rw [List.map_map]
    rfl

/-- Witness for C8 at the concrete stamped plan. -/
theorem roundtrip_amended_witness :
    stampedPlan.setmeup_version ≠ "" ∧
    ((Plan.load_from_doc "f" (stampedPlan.save_doc 0)).setmeup_version =
        stampedPlan.setmeup_version ∧
      (Plan.load_from_doc "f" (stampedPlan.save_doc 0)).required_env_vars =
        stampedPlan.required_env_vars ∧
      (Plan.load_from_doc "f" (stampedPlan.save_doc 0)).steps_to_execute =
        stampedPlan.steps_to_execute.map (fun s => { s with executed_at := none }) ∧
      (Plan.load_from_doc "f" (stampedPlan.save_doc 0)).filename = some "f") :=
  ⟨by decide, roundtrip_amended stampedPlan 0 "f" (by decide)⟩

/-- A world whose process environment already holds `X`. -/
def promptWorld : World :=
  { idWorld with
    env0 := fun n => if n = "X" then some "1" else none,
    input := fun _ => "typed-value" }

/-- A plan requiring the variable `X` with no recorded value and no
steps. -/
def promptPlan : Plan :=
  { required_env_vars := [{ name := "X", store_in := none, value := none }],
    steps_to_execute := [], filename := some "f" }

/-- C9 counterexample: `X` is present in the process environment, yet
`apply` still prompts for it — the prompt is decided by the recorded
plan value being `None`, before `set_value` ever looks at the
environment (which then leaves the value untouched). -/
theorem apply_prompts_despite_env_counterexample :
    promptWorld.env0 "X" = some "1" ∧
    (promptPlan.apply promptWorld).map (fun r => r.events) =
      .ok [.prompt "X", .alreadySet "X", .save "f"] := by
  exact ⟨rfl, by decide⟩

/-- Witness for C9 at the concrete prompting plan. -/
theorem env_handling_amended_witness :
    promptPlan.filename = some "f" ∧
    (∀ s ∈ promptPlan.steps_to_execute,
      s.checksum.test_if_checksums_equal promptWorld s.checksum.value = .ok true) ∧
    (∃ r, promptPlan.apply promptWorld = .ok r ∧
      (∀ nm, pyTruthy (promptWorld.env0 nm) = true → r.state.env nm = promptWorld.env0 nm) ∧
      (∀ nm, Event.prompt nm ∈ r.events ↔
        ∃ v ∈ promptPlan.required_env_vars, v.name = nm ∧ v.value = none) ∧
      (∀ v ∈ promptPlan.required_env_vars, ∀ sp, v.store_in = some sp → sp ≠ "" →
        ∃ val, Event.storeVar sp v.name val ∈ r.events)) := by
  have hall : ∀ s ∈ promptPlan.steps_to_execute,
      s.checksum.test_if_checksums_equal promptWorld s.checksum.value = .ok true := by
    intro s hs
    simp [promptPlan] at hs
  exact ⟨rfl, hall, env_handling_amended promptWorld promptPlan "f" rfl hall⟩
